import Mathlib

/-!
# Verification of the test-session lifecycle and subscription-entitlement core

Shallow embedding of the Medcelerates_OS backend core
(`backend/src/services/testService.ts`, `backend/src/controllers/authController.ts`,
`backend/src/utils/stripeUtils.ts`) together with proofs of the spec's claims.

Conventions:
* JavaScript `Date` timestamps are modelled as `Int` milliseconds since epoch,
  except for the billing component, where calendar-aware month arithmetic
  (`Date.setMonth`) forces an explicit civil-calendar date type `JSDate`.
* JavaScript numbers appearing in the score computation are modelled as exact
  rationals; the one place where a JS number can be `NaN` (division by a zero
  question count) is modelled by the explicit `JSNum.nan` constructor.
* Nullable columns are `Option` values.  JavaScript truthiness tests that the
  source performs on nullable numbers (`test.remainingSeconds`,
  `tq.userAnswer`) are modelled faithfully: `0` and `""` are falsy.
* `Array.prototype.sort` with the comparator `() => 0.5 - Math.random()`
  produces an unspecified permutation of its input; the three such shuffles in
  `createTest` are modelled as function parameters constrained to permute
  their argument.
-/

/-! ## JavaScript primitives -/

/-- `List` counterpart of `String.prototype.includes` (substring test):
`subListAt pat l` is true when `pat` occurs as a contiguous run of `l`. -/
def subListAt (pat : List Char) : List Char → Bool
  | [] => pat.isEmpty
  | c :: rest => pat.isPrefixOf (c :: rest) || subListAt pat rest

/-- `String.prototype.includes`, via the character lists. -/
def jsIncludes (s pat : String) : Bool :=
  subListAt pat.toList s.toList

/-- `Math.round` on an exact rational: round half toward positive infinity,
which is Mathlib's `round`. -/
def jsRound (q : ℚ) : ℤ := round q

/-- A JavaScript number that is either an actual integer or `NaN`
(the only two shapes the score computation can produce). -/
inductive JSNum where
  | nan : JSNum
  | int : ℤ → JSNum
deriving DecidableEq

/-- JS truthiness of a nullable number column: `null` and `0` are falsy. -/
def jsTruthyOptInt : Option Int → Bool
  | none => false
  | some r => r != 0

/-- JS truthiness of a nullable string column: `null` and `""` are falsy. -/
def jsTruthyOptStr : Option String → Bool
  | none => false
  | some s => s != ""

/-! ## Data model (prisma schema as used by the core) -/

/-- A `Question` row.  Markup payloads are opaque strings; only
`answerChoicesHtml` is ever inspected (by the scoring substring match). -/
structure Question where
  id : Nat
  subject : Option String
  unit : Option String
  isPassage : Bool
  passageId : Option Nat
  answerChoicesHtml : Option String
deriving DecidableEq

/-- A `TestQuestion` row joined with its `Question` (as `completeTest`
fetches it). -/
structure TestQuestion where
  id : Nat
  userAnswer : Option String
  question : Question
deriving DecidableEq

/-- `TestStatus` enum of the prisma schema. -/
inductive TestStatus where
  | inProgress
  | completed
deriving DecidableEq

/-- A `Test` row together with its `TestQuestion`s.  Timestamps are ms. -/
structure TestState where
  status : TestStatus
  totalTestDuration : Int
  startTime : Option Int
  pausedTime : Option Int
  remainingSeconds : Option Int
  score : Option JSNum
  completedAt : Option Int
  testQuestions : List TestQuestion
deriving DecidableEq

/-! ## Scoring (`completeTest`) -/

/-- The substring that `completeTest` searches for inside
`answerChoicesHtml`: `data-correct="true" data-choice="<answer>"`. -/
def correctPattern (answer : String) : String :=
  "data-correct=\"true\" data-choice=\"" ++ answer ++ "\""

/-- One `TestQuestion` counts correct in `completeTest`:
`tq.userAnswer && tq.question.answerChoicesHtml?.includes(pattern)`.
JS truthiness makes a stored empty-string answer count as unanswered;
optional chaining makes a `null` markup column count as incorrect. -/
def isCorrect (tq : TestQuestion) : Bool :=
  jsTruthyOptStr tq.userAnswer &&
    (match tq.userAnswer, tq.question.answerChoicesHtml with
     | some a, some html => jsIncludes html (correctPattern a)
     | _, _ => false)

/-- `Math.round((correctAnswers / totalQuestions) * 100)` of `completeTest`.
When the test has no questions the JS division is `0 / 0 = NaN` and
`Math.round(NaN) = NaN`. -/
def computeScore (tqs : List TestQuestion) : JSNum :=
  let totalQuestions : ℕ := tqs.length
  let correctAnswers : ℕ := (tqs.filter isCorrect).length
  if totalQuestions = 0 then JSNum.nan
  else JSNum.int (jsRound (((correctAnswers : ℚ) / (totalQuestions : ℚ)) * 100))

/-- `completeTest`: unconditionally sets `status = COMPLETED`, recomputes the
score from the current answers and overwrites `completedAt = now`.
The source performs no check of the current status. -/
def completeTest (now : Int) (t : TestState) : TestState :=
  { t with
    status := TestStatus.completed
    score := some (computeScore t.testQuestions)
    completedAt := some now }

/-! ## Lifecycle operations -/

/-- The `Test` row written by `createTest` (second revision of the service):
`status: IN_PROGRESS`, `totalTestDuration: 3600`, `startTime: new Date()`,
`remainingSeconds: 3600`, answers all `null`. -/
def createTestRow (now : Int) (qs : List Question) : TestState :=
  { status := TestStatus.inProgress
    totalTestDuration := 3600
    startTime := some now
    pausedTime := none
    remainingSeconds := some 3600
    score := none
    completedAt := none
    testQuestions := qs.enum.map (fun p => { id := p.1, userAnswer := none, question := p.2 }) }

/-- `startOrResumeTest`: when `startTime` is null, set it to `now` and reset
`remainingSeconds` to `totalTestDuration`; otherwise only clear
`pausedTime`. -/
def startOrResumeTest (now : Int) (t : TestState) : TestState :=
  match t.startTime with
  | none => { t with startTime := some now, remainingSeconds := some t.totalTestDuration }
  | some _ => { t with pausedTime := none }

/-- `pauseTest`: stores the caller-supplied `remainingSeconds` unvalidated and
sets `pausedTime = now`. -/
def pauseTest (now remainingSeconds : Int) (t : TestState) : TestState :=
  { t with pausedTime := some now, remainingSeconds := some remainingSeconds }

/-- `updateTestQuestionAnswer` (after the ownership check): overwrite the one
row's `userAnswer`; no other column of the test is touched and the test's
status is not inspected. -/
def updateTestQuestionAnswer (tqId : Nat) (answer : String) (t : TestState) : TestState :=
  { t with testQuestions :=
      t.testQuestions.map (fun tq =>
        if tq.id = tqId then { tq with userAnswer := some answer } else tq) }

/-- The remaining-time value computed by `getTestDetails`:
starts from `totalTestDuration` and only when `test.startTime` is non-null
AND `test.remainingSeconds` is truthy (non-null and non-zero!) replaces it by
`max(stored - elapsed, 0)`, where `elapsed` is `0` while paused and otherwise
`Math.floor((now - startTime) / 1000)`. -/
def detailsRemaining (now : Int) (t : TestState) : Int :=
  if t.startTime.isSome && jsTruthyOptInt t.remainingSeconds then
    let st := t.startTime.getD 0
    let r := t.remainingSeconds.getD 0
    let elapsed : Int := if t.pausedTime.isSome then 0 else (now - st).fdiv 1000
    max (r - elapsed) 0
  else
    t.totalTestDuration

/-! ## Entitlement engine (`getUserSubscriptionStatus`) -/

/-- Entitlement status enum. -/
inductive SubStatus where
  | activePaid
  | activeTrial
  | expiredPaid
  | expiredTrial
  | noSubscription
deriving DecidableEq

/-- The `{status, canExtend, canPurchase}` triple the engine returns. -/
structure SubInfo where
  status : SubStatus
  canExtend : Bool
  canPurchase : Bool
deriving DecidableEq

/-- Entitlement-relevant user columns (timestamps in ms). -/
structure UserSub where
  isPaidMember : Bool
  trialStartDate : Option Int
  trialEndDate : Option Int
  subscriptionEndDate : Option Int
  lastSubscriptionEndDate : Option Int
deriving DecidableEq

/-- `getUserSubscriptionStatus`, case for case.  Case 2 of the source first
requires both trial dates non-null and only returns `ACTIVE_TRIAL` when
`trialStart <= now <= trialEnd`, falling through otherwise. -/
def getUserSubscriptionStatus (now : Int) (u : UserSub) : SubInfo :=
  if u.isPaidMember &&
      (match u.subscriptionEndDate with
       | some d => decide (now < d)
       | none => false) then
    { status := SubStatus.activePaid, canExtend := true, canPurchase := false }
  else if !u.isPaidMember &&
      (match u.trialStartDate, u.trialEndDate with
       | some s, some e => decide (s ≤ now) && decide (now ≤ e)
       | _, _ => false) then
    { status := SubStatus.activeTrial, canExtend := false, canPurchase := true }
  else if u.isPaidMember &&
      (match u.subscriptionEndDate with
       | some d => decide (d ≤ now)
       | none => false) then
    { status := SubStatus.expiredPaid, canExtend := true, canPurchase := true }
  else if !u.isPaidMember &&
      (match u.trialEndDate with
       | some e => decide (e ≤ now)
       | none => false) then
    { status := SubStatus.expiredTrial, canExtend := false, canPurchase := true }
  else
    { status := SubStatus.noSubscription, canExtend := false, canPurchase := true }

/-- Case 1 of the spec's decision order: `isPaidMember && subscriptionEndDate > now`. -/
def specCase1 (now : Int) (u : UserSub) : Prop :=
  u.isPaidMember = true ∧ ∃ d, u.subscriptionEndDate = some d ∧ now < d

/-- Case 2 of the spec's decision order: `!isPaidMember && trialStart ≤ now ≤ trialEnd`. -/
def specCase2 (now : Int) (u : UserSub) : Prop :=
  u.isPaidMember = false ∧
    ∃ s e, u.trialStartDate = some s ∧ u.trialEndDate = some e ∧ s ≤ now ∧ now ≤ e

/-- Case 3 of the spec's decision order: `isPaidMember && subscriptionEndDate ≤ now`. -/
def specCase3 (now : Int) (u : UserSub) : Prop :=
  u.isPaidMember = true ∧ ∃ d, u.subscriptionEndDate = some d ∧ d ≤ now

/-- Case 4 of the spec's decision order: `!isPaidMember && trialEnd ≤ now` (trial end present). -/
def specCase4 (now : Int) (u : UserSub) : Prop :=
  u.isPaidMember = false ∧ ∃ e, u.trialEndDate = some e ∧ e ≤ now

/-! ## Billing event applier (`renewSubscription` / `calculateSubscriptionEndDate`)

`calculateSubscriptionEndDate` uses `Date.setMonth(getMonth() + k)`, i.e.
calendar-month arithmetic with JS day-overflow normalization (`Jan 31 + 1
month = Mar 3`), so dates are modelled here with civil calendar fields. -/

/-- A JS `Date` value split into civil fields: `month` is 0-based as in JS,
`day` is 1-based, `ms` is the time of day in milliseconds. -/
structure JSDate where
  year : Int
  month : Int
  day : Int
  ms : Int
deriving DecidableEq

/-- Gregorian leap year, as used by JS `Date`. -/
def isLeap (y : Int) : Bool :=
  (y % 4 == 0 && y % 100 != 0) || y % 400 == 0

/-- Days of 0-based month `m` in year `y` (any `m` outside `0..11` only
occurs before normalization and is never queried). -/
def daysInMonth (y m : Int) : Int :=
  if m = 1 then (if isLeap y then 29 else 28)
  else if m = 3 ∨ m = 5 ∨ m = 8 ∨ m = 10 then 30
  else 31

/-- A structurally valid civil date (what any JS `Date` denotes). -/
def JSDate.Valid (d : JSDate) : Prop :=
  0 ≤ d.month ∧ d.month < 12 ∧ 1 ≤ d.day ∧ d.day ≤ daysInMonth d.year d.month ∧
    0 ≤ d.ms ∧ d.ms < 86400000

instance (d : JSDate) : Decidable d.Valid := by
  unfold JSDate.Valid; infer_instance

/-- Order-preserving injection of valid dates into `ℤ` (chronological order;
`32 > 31 ≥ day` and `86400000 > ms` make it lexicographic). -/
def JSDate.toOrd (d : JSDate) : Int :=
  ((d.year * 12 + d.month) * 32 + d.day) * 86400000 + d.ms

/-- The `<` comparison of two JS `Date`s (numeric comparison of their
timestamps; chronological on valid dates). -/
def JSDate.ltb (a b : JSDate) : Bool :=
  decide (a.toOrd < b.toOrd)

/-- `d.setMonth(d.getMonth() + k)`: add `k` to the month field, carry into the
year, and normalize a day overflow by spilling into the following month
(for a valid date the day exceeds the target month by at most `31 - 28 = 3`
days, so a single spill is the exact JS normalization). -/
def addMonthsJS (d : JSDate) (k : Int) : JSDate :=
  let mTotal := d.month + k
  let y := d.year + mTotal.fdiv 12
  let m := mTotal.emod 12
  if daysInMonth y m < d.day then
    let m2 := m + 1
    { year := y + m2.fdiv 12, month := m2.emod 12, day := d.day - daysInMonth y m, ms := d.ms }
  else
    { year := y, month := m, day := d.day, ms := d.ms }

/-- Subscription plan lengths accepted by the billing routes. -/
inductive SubscriptionLength where
  | oneMonth
  | threeMonths
deriving DecidableEq

/-- Months added by each plan. -/
def monthsOf : SubscriptionLength → Int
  | SubscriptionLength.oneMonth => 1
  | SubscriptionLength.threeMonths => 3

/-- `calculateSubscriptionEndDate(subscriptionLength, existingEndDate)`:
`setMonth(+1)` for `ONE_MONTH`, `setMonth(+3)` for `THREE_MONTHS`. -/
def calculateSubscriptionEndDate (len : SubscriptionLength) (existingEndDate : JSDate) : JSDate :=
  match len with
  | SubscriptionLength.oneMonth => addMonthsJS existingEndDate 1
  | SubscriptionLength.threeMonths => addMonthsJS existingEndDate 3

/-- The date computation of `renewSubscription`:
`current = user.subscriptionEndDate || now` (a `Date` is always truthy, so
only `null` falls back); `start = current > now ? current : now`;
`end = calculateSubscriptionEndDate(len, start)`.  Returns `(start, end)`. -/
def renewDates (now : JSDate) (subscriptionEndDate : Option JSDate) (len : SubscriptionLength) :
    JSDate × JSDate :=
  let current := subscriptionEndDate.getD now
  let start := if JSDate.ltb now current then current else now
  (start, calculateSubscriptionEndDate len start)

/-- Billing-relevant user columns (calendar dates). -/
structure BillingUser where
  isPaidMember : Bool
  trialStartDate : Option JSDate
  trialEndDate : Option JSDate
  subscriptionEndDate : Option JSDate
  lastSubscriptionEndDate : Option JSDate
deriving DecidableEq

/-- The `prisma.user.update` that `renewSubscription` performs on success:
paid flag set, trial dates cleared, the previous end archived in
`lastSubscriptionEndDate`, and the new end date stored. -/
def applyRenewal (now : JSDate) (u : BillingUser) (len : SubscriptionLength) : BillingUser :=
  { isPaidMember := true
    trialStartDate := none
    trialEndDate := none
    subscriptionEndDate := some (renewDates now u.subscriptionEndDate len).2
    lastSubscriptionEndDate := u.subscriptionEndDate }

/-! ## Test assembler (`createTest`, second revision of the service) -/

/-- The dynamic prisma `where` filter: a non-empty `subjectFilters` array adds
`subject: { in: subjectFilters }` (a `null` subject never matches `in`), and
likewise for units. -/
def questionMatches (sf uf : List String) (q : Question) : Bool :=
  (sf.isEmpty ||
    (match q.subject with
     | some s => sf.contains s
     | none => false)) &&
  (uf.isEmpty ||
    (match q.unit with
     | some u => uf.contains u
     | none => false))

/-- Grouping key used by `createTest` (`question.passageId || 'ungrouped'`;
every fetched passage question has a non-null `passageId`). -/
def pidKey (q : Question) : Nat := q.passageId.getD 0

/-- Insert `a` after every element `b` with `le b a` — one step of a stable
insertion sort. -/
def insertSorted {α : Type} (le : α → α → Bool) (a : α) : List α → List α
  | [] => [a]
  | b :: rest => if le b a then b :: insertSorted le a rest else a :: b :: rest

/-- Stable sort by `le` (equal elements keep their first-seen order).  A
stable sort is unique for a total comparator, so this models both the
database `orderBy` and the JS stable `Array.prototype.sort`. -/
def stableSortBy {α : Type} (le : α → α → Bool) (l : List α) : List α :=
  l.foldl (fun acc a => insertSorted le a acc) []

/-- The passage-attached candidate pool: non-passage rows with non-null
`passageId` matching the filters, ordered by `passageId` ascending. -/
def matchingPassageQs (bank : List Question) (sf uf : List String) : List Question :=
  stableSortBy (fun a b => decide (pidKey a ≤ pidKey b))
    (bank.filter (fun q => questionMatches sf uf q && !q.isPassage && q.passageId.isSome))

/-- The standalone candidate pool: non-passage rows with null `passageId`
matching the filters. -/
def matchingStandaloneQs (bank : List Question) (sf uf : List String) : List Question :=
  bank.filter (fun q => questionMatches sf uf q && !q.isPassage && q.passageId.isNone)

/-- Append `q` to the group keyed `k`, creating the group at the end on first
sight — the object-insertion-order grouping of the source's `reduce`. -/
def insertIntoGroups (gs : List (Nat × List Question)) (k : Nat) (q : Question) :
    List (Nat × List Question) :=
  match gs with
  | [] => [(k, [q])]
  | (k', qs) :: rest =>
      if k' = k then (k', qs ++ [q]) :: rest
      else (k', qs) :: insertIntoGroups rest k q

/-- Group a question list by `pidKey`, keys in order of first occurrence
(`Object.values` of the accumulated record). -/
def groupByPassage (l : List Question) : List (Nat × List Question) :=
  l.foldl (fun gs q => insertIntoGroups gs (pidKey q) q) []

/-- `sort((a, b) => b.length - a.length)`: stable sort by group size,
descending. -/
def sortGroupsBySizeDesc (gs : List (List Question)) : List (List Question) :=
  stableSortBy (fun a b => decide (b.length ≤ a.length)) gs

/-- `Math.floor(numQuestions * 0.75)` (exact, `0.75` is dyadic). -/
def passageTarget (numQuestions : Nat) : Nat := 3 * numQuestions / 4

/-- The `while` loop of `createTest`: as long as fewer than `target` questions
are selected and groups remain, shift the first (largest) group and add it
whenever it fits entirely within `target`; groups that do not fit are
discarded.  Returns the selection and the unconsumed groups. -/
def selectGroups (target : Nat) (gs : List (List Question)) (acc : List Question) :
    List Question × List (List Question) :=
  match gs with
  | [] => (acc, [])
  | g :: rest =>
      if acc.length < target then
        selectGroups target rest (if acc.length + g.length ≤ target then acc ++ g else acc)
      else (acc, g :: rest)

/-- Outcome of the assembly phase of `createTest`: either the final ordered
question list or the structured `InsufficientQuestionsError` payload
(`availableQuestions` and the leftover `passageGroups`). -/
inductive AssembleOutcome where
  | success (questions : List Question)
  | shortfall (availableQuestions : Nat) (passageGroups : List (List Question))
deriving DecidableEq

/-- The greedy passage-group phase of `createTest`: group the passage pool,
sort the groups by size descending and run the selection loop with target
`Math.floor(numQuestions * 0.75)`. -/
def greedySelection (bank : List Question) (sf uf : List String) (numQuestions : Nat) :
    List Question × List (List Question) :=
  selectGroups (passageTarget numQuestions)
    (sortGroupsBySizeDesc ((groupByPassage (matchingPassageQs bank sf uf)).map Prod.snd)) []

/-- The full `selectedQuestions` array of `createTest`: the greedy group
selection followed by (when the standalone pool is non-empty) a random
sample of the standalone pool, capped at the remaining slots.  `shPick` is
the sampling shuffle. -/
def assembleSelected (bank : List Question) (sf uf : List String) (numQuestions : Nat)
    (shPick : List Question → List Question) : List Question :=
  let groupSel := (greedySelection bank sf uf numQuestions).1
  let standaloneQs := matchingStandaloneQs bank sf uf
  groupSel ++
    (if standaloneQs.length > 0 then
      (shPick (standaloneQs.filter (fun q => !(groupSel.contains q)))).take
        (numQuestions - groupSel.length)
    else [])

/-- The assembly phase of `createTest`.  The three `sort(() => 0.5 -
Math.random())` shuffles are passed in as `shPick` (standalone sampling),
`shStandalone` (standalone presentation order) and `shCombined` (interleaving
of passage blocks and standalone questions); each is an arbitrary
permutation. -/
def assemble (bank : List Question) (sf uf : List String) (numQuestions : Nat)
    (shPick shStandalone : List Question → List Question)
    (shCombined : List (List Question) → List (List Question)) : AssembleOutcome :=
  let selected := assembleSelected bank sf uf numQuestions shPick
  if selected.length < numQuestions then
    AssembleOutcome.shortfall selected.length (greedySelection bank sf uf numQuestions).2
  else
    let blocks := (groupByPassage (selected.filter (fun q => q.passageId.isSome))).map Prod.snd
    let singles := (shStandalone (selected.filter (fun q => q.passageId.isNone))).map (fun q => [q])
    AssembleOutcome.success ((shCombined (blocks ++ singles)).flatten.take numQuestions)

/-- The structured error payload of `InsufficientQuestionsError`. -/
structure InsufficientQuestionsError where
  availableQuestions : Nat
  passageGroups : List (List Question)
deriving DecidableEq

/-- `createTest` end to end: assemble, then either persist the new test row or
throw `InsufficientQuestionsError`.  The requested count is not validated
anywhere on the way in (route handler defaults it to 10 only when absent). -/
def createTest (now : Int) (bank : List Question) (sf uf : List String) (numQuestions : Nat)
    (shPick shStandalone : List Question → List Question)
    (shCombined : List (List Question) → List (List Question)) :
    Except InsufficientQuestionsError TestState :=
  match assemble bank sf uf numQuestions shPick shStandalone shCombined with
  | AssembleOutcome.success qs => Except.ok (createTestRow now qs)
  | AssembleOutcome.shortfall a gs => Except.error ⟨a, gs⟩

/-- A selection of size `k` is genuinely assemblable from the bank under the
filters: an order-respecting choice of `k` matching non-passage questions
that never splits a passage group (every touched group is taken whole).
This is the claim-side notion of "assemblable" used to check the reported
`availableQuestions` against the true maximum. -/
def IsAssemblable (bank : List Question) (sf uf : List String) (numQuestions k : Nat) : Prop :=
  ∃ sel : List Question,
    sel.Sublist (bank.filter (fun q => questionMatches sf uf q && !q.isPassage)) ∧
    sel.length = k ∧ k ≤ numQuestions ∧
    ∀ p : Nat, sel.filter (fun q => q.passageId = some p) = [] ∨
      sel.filter (fun q => q.passageId = some p) =
        (bank.filter (fun q => questionMatches sf uf q && !q.isPassage)).filter
          (fun q => q.passageId = some p)

/-- A passage group keyed `p` occurs contiguously (possibly empty) in `l`. -/
def BlockContiguous (l : List Question) (p : Nat) : Prop :=
  ∃ pre mid post, l = pre ++ mid ++ post ∧
    (∀ q ∈ pre, q.passageId ≠ some p) ∧
    (∀ q ∈ mid, q.passageId = some p) ∧
    (∀ q ∈ post, q.passageId ≠ some p)

/-! ## Claim-side correctness predicate and concrete fixtures -/

/-- The claim's notion of a correct answer: `userAnswer` is non-null and the
answer-choices markup contains `data-correct="true" data-choice="<answer>"`.
It agrees with the source's `isCorrect` except on a stored empty-string
answer, which JS truthiness treats as unanswered; the answer route rejects
empty answers, so the two coincide on reachable rows. -/
def claimCorrect (tq : TestQuestion) : Bool :=
  match tq.userAnswer, tq.question.answerChoicesHtml with
  | some a, some html => jsIncludes html (correctPattern a)
  | _, _ => false

/-- A passage-attached question (parent passage keyed `1`). -/
def passageBankQ (i : Nat) : Question :=
  { id := i, subject := none, unit := none, isPassage := false, passageId := some 1,
    answerChoicesHtml := none }

/-- A standalone question. -/
def standaloneBankQ (i : Nat) : Question :=
  { id := 100 + i, subject := none, unit := none, isPassage := false, passageId := none,
    answerChoicesHtml := none }

/-- A bank holding a single passage group of ten questions and nothing else. -/
def passageOnlyBank : List Question := (List.range 10).map passageBankQ

/-- A bank with three standalone questions and one passage group of two. -/
def mixedBank : List Question :=
  (List.range 3).map standaloneBankQ ++ (List.range 2).map passageBankQ

/-- Markup in which choice `A` is flagged correct. -/
def choiceAHtml : String :=
  "<li data-correct=\"true\" data-choice=\"A\">x</li><li data-choice=\"B\">y</li>"

/-- A one-question fixture test (question 7, choice `A` correct, unanswered),
started at time `0`. -/
def fixtureTest : TestState :=
  { status := TestStatus.inProgress
    totalTestDuration := 3600
    startTime := some 0
    pausedTime := none
    remainingSeconds := some 3600
    score := none
    completedAt := none
    testQuestions :=
      [{ id := 7, userAnswer := none,
         question := { id := 0, subject := none, unit := none, isPassage := false,
                       passageId := none, answerChoicesHtml := some choiceAHtml } }] }

/-- A two-question fixture: question 7 answered `A` (correct), question 8
answered `B` (incorrect: only `A` is flagged). -/
def fixtureTest2 : TestState :=
  { status := TestStatus.inProgress
    totalTestDuration := 3600
    startTime := some 0
    pausedTime := none
    remainingSeconds := some 3600
    score := none
    completedAt := none
    testQuestions :=
      [{ id := 7, userAnswer := some "A",
         question := { id := 0, subject := none, unit := none, isPassage := false,
                       passageId := none, answerChoicesHtml := some choiceAHtml } },
       { id := 8, userAnswer := some "B",
         question := { id := 1, subject := none, unit := none, isPassage := false,
                       passageId := none, answerChoicesHtml := some choiceAHtml } }] }

/-- A test with no questions at all (what `createTest` persists for a
requested count of `0`). -/
def emptyQuestionsTest : TestState := createTestRow 0 []

/-- A paid user whose subscription ends at time `5000`. -/
def paidUntil5000 : UserSub :=
  { isPaidMember := true, trialStartDate := none, trialEndDate := none,
    subscriptionEndDate := some 5000, lastSubscriptionEndDate := none }

/-- Invariant tying the grouping accumulator of `groupByPassage` to the
processed prefix `done`: keys are pairwise distinct, every group is the
(non-empty) sub-sequence of `done` with its key, every processed question has
a group, and the groups flatten to a permutation of `done`. -/
def GroupInv (done : List Question) (gs : List (Nat × List Question)) : Prop :=
  gs.Pairwise (fun a b => a.1 ≠ b.1) ∧
  (∀ kg ∈ gs, kg.2 = done.filter (fun q => pidKey q == kg.1)) ∧
  (∀ kg ∈ gs, kg.2 ≠ []) ∧
  (∀ q ∈ done, ∃ kg ∈ gs, kg.1 = pidKey q) ∧
  (gs.map Prod.snd).flatten.Perm done

/-- An item of the final interleaving: either a standalone singleton or a
whole passage group of the passage pool `P`. -/
def GoodItem (P : List Question) (item : List Question) : Prop :=
  (∃ q, item = [q] ∧ q.passageId = none) ∨
  (∃ p : Nat, item ≠ [] ∧ item = P.filter (fun q => q.passageId == some p))

/-- Two question lists share no passage id. -/
def NoSharedPid (a b : List Question) : Prop :=
  ¬∃ p : Nat, (∃ x ∈ a, x.passageId = some p) ∧ (∃ y ∈ b, y.passageId = some p)

/-! ## Scoring lemmas -/

theorem filter_isCorrect_eq_claimCorrect (tqs : List TestQuestion)
    (hval : ∀ tq ∈ tqs, tq.userAnswer ≠ some "") :
    tqs.filter isCorrect = tqs.filter claimCorrect := by
  apply List.filter_congr
  intro tq htq
  unfold isCorrect claimCorrect jsTruthyOptStr
  cases hua : tq.userAnswer with
  | none => simp
  | some a =>
      have ha : a ≠ "" := by
        intro h
        exact hval tq htq (h ▸ hua)
      simp [bne_iff_ne, ha]

theorem jsRound_nonneg {q : ℚ} (hq : 0 ≤ q) : 0 ≤ jsRound q := by
  unfold jsRound
  rw [round_eq]
  apply Int.le_floor.mpr
  push_cast
  linarith

theorem jsRound_le_hundred {q : ℚ} (hq : q ≤ 100) : jsRound q ≤ 100 := by
  unfold jsRound
  rw [round_eq]
  have : (q + 1 / 2 : ℚ) < ((101 : ℤ) : ℚ) := by push_cast; linarith
  have h2 := Int.floor_lt.mpr this
  omega

/-- Claim C10: the score computation divides by the number of
`TestQuestion`s with no guard: a test completed with zero questions stores
the invalid `NaN` score, and with at least one question it stores an actual
integer. -/
theorem completeTest_score_welldefined (t : TestState) (now : Int) :
    (t.testQuestions = [] → (completeTest now t).score = some JSNum.nan) ∧
    (t.testQuestions ≠ [] →
      ∃ s : ℤ, (completeTest now t).score = some (JSNum.int s)) := by
  constructor
  · intro h
    simp [completeTest, computeScore, h]
  · intro h
    have : t.testQuestions.length ≠ 0 := by
      simpa [List.length_eq_zero] using h
    exact ⟨jsRound (((t.testQuestions.filter isCorrect).length : ℚ) /
        (t.testQuestions.length : ℚ) * 100), by simp [completeTest, computeScore, this]⟩

/-- Witness for C10: the zero-question test stores `NaN`; the one-question
fixture stores an integer. -/
theorem completeTest_score_welldefined_witness :
    (completeTest 0 emptyQuestionsTest).score = some JSNum.nan ∧
    ∃ s : ℤ, (completeTest 0 fixtureTest).score = some (JSNum.int s) :=
  ⟨(completeTest_score_welldefined emptyQuestionsTest 0).1 rfl,
   (completeTest_score_welldefined fixtureTest 0).2 (by decide)⟩

/-- Claim C1: for a test completed with at least one question and no stored
empty-string answer (the answer route refuses those), the stored score is the
integer `round(100 × correct / total)` with `correct` counted by the
`data-correct="true" data-choice="<answer>"` substring match, and it lies
between 0 and 100. -/
theorem completeTest_score_formula (t : TestState) (now : Int)
    (hne : t.testQuestions ≠ [])
    (hval : ∀ tq ∈ t.testQuestions, tq.userAnswer ≠ some "") :
    ∃ s : ℤ, (completeTest now t).score = some (JSNum.int s) ∧
      s = jsRound (100 * ((t.testQuestions.filter claimCorrect).length : ℚ) /
            (t.testQuestions.length : ℚ)) ∧
      0 ≤ s ∧ s ≤ 100 := by
  have hfil := filter_isCorrect_eq_claimCorrect t.testQuestions hval
  have htot : t.testQuestions.length ≠ 0 := by
    simpa [List.length_eq_zero] using hne
  have hc : (t.testQuestions.filter claimCorrect).length ≤ t.testQuestions.length :=
    List.length_filter_le _ _
  have htotpos : (0 : ℚ) < (t.testQuestions.length : ℚ) := by
    exact_mod_cast Nat.pos_of_ne_zero htot
  set c : ℚ := ((t.testQuestions.filter claimCorrect).length : ℚ) with hcdef
  have hc0 : 0 ≤ c := by positivity
  have hcq : c ≤ (t.testQuestions.length : ℚ) := by rw [hcdef]; exact_mod_cast hc
  have hqform : (c / (t.testQuestions.length : ℚ)) * 100 =
      100 * c / (t.testQuestions.length : ℚ) := by ring
  have hq0 : 0 ≤ 100 * c / (t.testQuestions.length : ℚ) := by positivity
  have hq100 : 100 * c / (t.testQuestions.length : ℚ) ≤ 100 := by
    rw [div_le_iff₀ htotpos]
    nlinarith
  refine ⟨_, ?_, rfl, jsRound_nonneg hq0, jsRound_le_hundred hq100⟩
  simp only [completeTest, computeScore, hfil, htot, if_false, hqform]

/-! ## Entitlement theorems -/

/-- Claim C5: `getUserSubscriptionStatus` follows the five-case first-match
decision order of the spec — `ACTIVE_PAID` (canExtend, not canPurchase) for a
paid member with a future end date, `ACTIVE_TRIAL` for an unpaid user inside
the trial window, `EXPIRED_PAID` for a paid member at or past the end date,
`EXPIRED_TRIAL` for an unpaid user at or past the trial end, else
`NO_SUBSCRIPTION`; in particular an end date one second in the future gives
`ACTIVE_PAID` and one second in the past gives `EXPIRED_PAID`. -/
theorem getUserSubscriptionStatus_cases (now : Int) (u : UserSub) :
    (specCase1 now u →
      getUserSubscriptionStatus now u =
        { status := SubStatus.activePaid, canExtend := true, canPurchase := false }) ∧
    (¬specCase1 now u → specCase2 now u →
      getUserSubscriptionStatus now u =
        { status := SubStatus.activeTrial, canExtend := false, canPurchase := true }) ∧
    (¬specCase1 now u → ¬specCase2 now u → specCase3 now u →
      getUserSubscriptionStatus now u =
        { status := SubStatus.expiredPaid, canExtend := true, canPurchase := true }) ∧
    (¬specCase1 now u → ¬specCase2 now u → ¬specCase3 now u → specCase4 now u →
      getUserSubscriptionStatus now u =
        { status := SubStatus.expiredTrial, canExtend := false, canPurchase := true }) ∧
    (¬specCase1 now u → ¬specCase2 now u → ¬specCase3 now u → ¬specCase4 now u →
      getUserSubscriptionStatus now u =
        { status := SubStatus.noSubscription, canExtend := false, canPurchase := true }) ∧
    (getUserSubscriptionStatus now
        { isPaidMember := true, trialStartDate := none, trialEndDate := none,
          subscriptionEndDate := some (now + 1000), lastSubscriptionEndDate := none } =
      { status := SubStatus.activePaid, canExtend := true, canPurchase := false }) ∧
    (getUserSubscriptionStatus now
        { isPaidMember := true, trialStartDate := none, trialEndDate := none,
          subscriptionEndDate := some (now - 1000), lastSubscriptionEndDate := none } =
      { status := SubStatus.expiredPaid, canExtend := true, canPurchase := true }) := by
  obtain ⟨paid, ts, te, se, ls⟩ := u
  refine ⟨?_, ?_, ?_, ?_, ?_, ?_, ?_⟩ <;>
    cases paid <;>
    rcases ts with _ | s <;>
    rcases te with _ | e <;>
    rcases se with _ | d <;>
    simp_all [getUserSubscriptionStatus, specCase1, specCase2, specCase3, specCase4] <;>
    first
      | omega
      | (intros
         split_ifs <;> (try simp_all) <;> omega)

/-- Witness for C5: a paid user whose subscription ends in the future is
`ACTIVE_PAID` by the first case. -/
theorem getUserSubscriptionStatus_cases_witness :
    specCase1 0 paidUntil5000 ∧
    getUserSubscriptionStatus 0 paidUntil5000 =
      { status := SubStatus.activePaid, canExtend := true, canPurchase := false } :=
  ⟨⟨rfl, 5000, rfl, by norm_num⟩,
   (getUserSubscriptionStatus_cases 0 paidUntil5000).1 ⟨rfl, 5000, rfl, by norm_num⟩⟩

/-! ## Grouping lemmas (`groupByPassage`) -/

theorem insertIntoGroups_of_not_mem (gs : List (Nat × List Question)) (k : Nat) (q : Question)
    (h : k ∉ gs.map Prod.fst) :
    insertIntoGroups gs k q = gs ++ [(k, [q])] := by
  induction gs with
  | nil => rfl
  | cons kg rest ih =>
      obtain ⟨k', qs⟩ := kg
      simp only [List.map_cons, List.mem_cons] at h
      push_neg at h
      unfold insertIntoGroups
      rw [if_neg (Ne.symm h.1)]
      rw [ih h.2]
      rfl

theorem insertIntoGroups_of_mem (gs₁ gs₂ : List (Nat × List Question)) (k : Nat)
    (qs : List Question) (q : Question) (h : k ∉ gs₁.map Prod.fst) :
    insertIntoGroups (gs₁ ++ (k, qs) :: gs₂) k q = gs₁ ++ (k, qs ++ [q]) :: gs₂ := by
  induction gs₁ with
  | nil =>
      simp only [List.nil_append]
      unfold insertIntoGroups
      rw [if_pos rfl]
  | cons kg rest ih =>
      obtain ⟨k', qs'⟩ := kg
      simp only [List.map_cons, List.mem_cons] at h
      push_neg at h
      show insertIntoGroups ((k', qs') :: (rest ++ (k, qs) :: gs₂)) k q = _
      unfold insertIntoGroups
      rw [if_neg (Ne.symm h.1)]
      rw [ih h.2]
      rfl

/-- The key-distinctness pairwise condition only depends on the key list. -/
theorem pairwise_keys_iff (gs : List (Nat × List Question)) :
    gs.Pairwise (fun a b => a.1 ≠ b.1) ↔ (gs.map Prod.fst).Pairwise (· ≠ ·) := by
  rw [List.pairwise_map]

theorem groupInv_insert (done : List Question) (gs : List (Nat × List Question)) (q : Question)
    (hinv : GroupInv done gs) :
    GroupInv (done ++ [q]) (insertIntoGroups gs (pidKey q) q) := by
  obtain ⟨hpair, hfil, hne, hcov, hperm⟩ := hinv
  by_cases hk : pidKey q ∈ gs.map Prod.fst
  · obtain ⟨⟨k0, qs0⟩, hkg_mem, hkg_key⟩ : ∃ kg ∈ gs, kg.1 = pidKey q := by
      obtain ⟨kg, hm, he⟩ := List.mem_map.mp hk
      exact ⟨kg, hm, he⟩
    have hkey : k0 = pidKey q := hkg_key
    obtain ⟨gs₁, gs₂, rfl⟩ := List.append_of_mem hkg_mem
    rw [← hkey]
    have hmid := (List.pairwise_middle (fun h => h.symm)).mp hpair
    have hk1 : ∀ kg' ∈ gs₁, kg'.1 ≠ k0 := by
      intro kg' hm
      have := (List.pairwise_cons.mp hmid).1 kg' (List.mem_append_left _ hm)
      exact fun he => this (he ▸ rfl)
    have hk2 : ∀ kg' ∈ gs₂, kg'.1 ≠ k0 := by
      intro kg' hm
      have := (List.pairwise_cons.mp hmid).1 kg' (List.mem_append_right _ hm)
      exact fun he => this (he ▸ rfl)
    have hnotin₁ : k0 ∉ gs₁.map Prod.fst := by
      intro hmem
      obtain ⟨kg', hm, he⟩ := List.mem_map.mp hmem
      exact hk1 kg' hm he
    rw [insertIntoGroups_of_mem gs₁ gs₂ k0 qs0 q hnotin₁]
    have hfilq_ne : ∀ (k' : Nat), k' ≠ k0 →
        (done ++ [q]).filter (fun x => pidKey x == k') = done.filter (fun x => pidKey x == k') := by
      intro k' hne'
      rw [List.filter_append]
      have hb : (pidKey q == k') = false := by
        rw [beq_eq_false_iff_ne, ← hkey]
        exact Ne.symm hne'
      have : [q].filter (fun x => pidKey x == k') = [] := by
        simp [List.filter_cons, hb]
      rw [this, List.append_nil]
    refine ⟨?_, ?_, ?_, ?_, ?_⟩
    · rw [pairwise_keys_iff]
      rw [pairwise_keys_iff] at hpair
      simpa using hpair
    · intro kg hm
      rcases List.mem_append.mp hm with hm1 | hm2
      · rw [hfilq_ne kg.1 (hk1 kg hm1)]
        exact hfil kg (List.mem_append_left _ hm1)
      · rcases List.mem_cons.mp hm2 with rfl | hm3
        · show qs0 ++ [q] = _
          rw [List.filter_append]
          have h1 : qs0 = done.filter (fun x => pidKey x == k0) :=
            hfil (k0, qs0) (List.mem_append_right _ (List.mem_cons_self _ _))
          have h2 : [q].filter (fun x => pidKey x == k0) = [q] := by
            simp [List.filter_cons, hkey.symm]
          rw [← h1, h2]
        · rw [hfilq_ne kg.1 (hk2 kg hm3)]
          exact hfil kg (List.mem_append_right _ (List.mem_cons_of_mem _ hm3))
    · intro kg hm
      rcases List.mem_append.mp hm with hm1 | hm2
      · exact hne kg (List.mem_append_left _ hm1)
      · rcases List.mem_cons.mp hm2 with rfl | hm3
        · simp
        · exact hne kg (List.mem_append_right _ (List.mem_cons_of_mem _ hm3))
    · intro x hx
      rcases List.mem_append.mp hx with hx1 | hx2
      · obtain ⟨kg, hm, he⟩ := hcov x hx1
        rcases List.mem_append.mp hm with hm1 | hm2
        · exact ⟨kg, List.mem_append_left _ hm1, he⟩
        · rcases List.mem_cons.mp hm2 with rfl | hm3
          · exact ⟨(k0, qs0 ++ [q]), List.mem_append_right _ (List.mem_cons_self _ _), he⟩
          · exact ⟨kg, List.mem_append_right _ (List.mem_cons_of_mem _ hm3), he⟩
      · have hxq : x = q := by simpa using hx2
        exact ⟨(k0, qs0 ++ [q]), List.mem_append_right _ (List.mem_cons_self _ _),
          by rw [hxq]; exact hkey⟩
    · have hperm2 : List.Perm
          ((gs₁.map Prod.snd).flatten ++ (qs0 ++ (gs₂.map Prod.snd).flatten)) done := by
        have := hperm
        simp only [List.map_append, List.map_cons, List.flatten_append, List.flatten_cons,
          List.append_assoc] at this
        simpa [List.append_assoc] using this
      simp only [List.map_append, List.map_cons, List.flatten_append, List.flatten_cons,
        List.append_assoc]
      refine List.Perm.trans
        (List.Perm.append_left _ (List.Perm.append_left _ List.perm_append_comm)) ?_
      have hfin := hperm2.append_right [q]
      simpa [List.append_assoc] using hfin
  · rw [insertIntoGroups_of_not_mem gs (pidKey q) q hk]
    have hkeys : ∀ kg ∈ gs, kg.1 ≠ pidKey q := by
      intro kg hm he
      exact hk (he ▸ List.mem_map_of_mem Prod.fst hm)
    have hdone : done.filter (fun x => pidKey x == pidKey q) = [] := by
      rw [List.filter_eq_nil_iff]
      intro x hx hbeq
      obtain ⟨kg, hm, he⟩ := hcov x hx
      exact hkeys kg hm (he.trans (by simpa using hbeq))
    refine ⟨?_, ?_, ?_, ?_, ?_⟩
    · rw [List.pairwise_append]
      refine ⟨hpair, List.pairwise_singleton _ _, ?_⟩
      intro a ha b hb
      have hb2 : b = (pidKey q, [q]) := by simpa using hb
      subst hb2
      exact hkeys a ha
    · intro kg hm
      rcases List.mem_append.mp hm with hm1 | hm2
      · rw [List.filter_append]
        have hbf : (pidKey q == kg.1) = false := by
          rw [beq_eq_false_iff_ne]
          exact fun he => hkeys kg hm1 he.symm
        have : [q].filter (fun x => pidKey x == kg.1) = [] := by
          simp [List.filter_cons, hbf]
        rw [this, List.append_nil]
        exact hfil kg hm1
      · have hkg2 : kg = (pidKey q, [q]) := by simpa using hm2
        subst hkg2
        show [q] = _
        rw [List.filter_append, hdone]
        simp [List.filter_cons]
    · intro kg hm
      rcases List.mem_append.mp hm with hm1 | hm2
      · exact hne kg hm1
      · have hkg2 : kg = (pidKey q, [q]) := by simpa using hm2
        subst hkg2
        simp
    · intro x hx
      rcases List.mem_append.mp hx with hx1 | hx2
      · obtain ⟨kg, hm, he⟩ := hcov x hx1
        exact ⟨kg, List.mem_append_left _ hm, he⟩
      · have hxq : x = q := by simpa using hx2
        exact ⟨(pidKey q, [q]), List.mem_append_right _ (List.mem_cons_self _ _), by rw [hxq]⟩
    · simp only [List.map_append, List.map_cons, List.map_nil, List.flatten_append,
        List.flatten_cons, List.flatten_nil, List.append_nil]
      exact hperm.append_right [q]

theorem groupByPassage_inv (l : List Question) : GroupInv l (groupByPassage l) := by
  induction l using List.reverseRecOn with
  | nil =>
      refine ⟨List.Pairwise.nil, ?_, ?_, ?_, ?_⟩ <;> simp [groupByPassage]
  | append_singleton l q ih =>
      have hstep : groupByPassage (l ++ [q]) = insertIntoGroups (groupByPassage l) (pidKey q) q := by
        unfold groupByPassage
        rw [List.foldl_append]
        rfl
      rw [hstep]
      exact groupInv_insert l (groupByPassage l) q ih

/-! ## Greedy selection and pool lemmas -/

/-- The greedy loop returns the initial accumulator followed by a
sub-sequence of the groups, flattened. -/
theorem selectGroups_flatten (target : Nat) :
    ∀ (gs : List (List Question)) (acc : List Question),
      ∃ chosen : List (List Question),
        List.Sublist chosen gs ∧ (selectGroups target gs acc).1 = acc ++ chosen.flatten := by
  intro gs
  induction gs with
  | nil =>
      intro acc
      exact ⟨[], List.nil_sublist _, by simp [selectGroups]⟩
  | cons g rest ih =>
      intro acc
      simp only [selectGroups]
      by_cases h : acc.length < target
      · rw [if_pos h]
        by_cases hfit : acc.length + g.length ≤ target
        · rw [if_pos hfit]
          obtain ⟨chosen, hsub, heq⟩ := ih (acc ++ g)
          refine ⟨g :: chosen, List.Sublist.cons₂ g hsub, ?_⟩
          rw [heq, List.flatten_cons, List.append_assoc]
        · rw [if_neg hfit]
          obtain ⟨chosen, hsub, heq⟩ := ih acc
          exact ⟨chosen, List.Sublist.cons g hsub, heq⟩
      · rw [if_neg h]
        exact ⟨[], List.nil_sublist _, by simp⟩

/-- The greedy loop never exceeds its target. -/
theorem selectGroups_length_le (target : Nat) :
    ∀ (gs : List (List Question)) (acc : List Question), acc.length ≤ target →
      (selectGroups target gs acc).1.length ≤ target := by
  intro gs
  induction gs with
  | nil =>
      intro acc hacc
      simpa [selectGroups] using hacc
  | cons g rest ih =>
      intro acc hacc
      simp only [selectGroups]
      by_cases h : acc.length < target
      · rw [if_pos h]
        by_cases hfit : acc.length + g.length ≤ target
        · rw [if_pos hfit]
          exact ih (acc ++ g) (by simpa using hfit)
        · rw [if_neg hfit]
          exact ih acc hacc
      · rw [if_neg h]
        exact hacc

theorem insertSorted_perm {α : Type} (le : α → α → Bool) (a : α) :
    ∀ l : List α, List.Perm (insertSorted le a l) (a :: l) := by
  intro l
  induction l with
  | nil => exact List.Perm.refl _
  | cons b rest ih =>
      unfold insertSorted
      by_cases h : le b a = true
      · rw [if_pos h]
        exact (ih.cons b).trans (List.Perm.swap a b rest)
      · rw [if_neg h]

theorem stableSortBy_perm {α : Type} (le : α → α → Bool) (l : List α) :
    List.Perm (stableSortBy le l) l := by
  suffices h : ∀ (l' acc : List α),
      List.Perm (l'.foldl (fun acc a => insertSorted le a acc) acc) (acc ++ l') by
    simpa using h l []
  intro l'
  induction l' with
  | nil => intro acc; simp
  | cons a rest ih =>
      intro acc
      have h1 := ih (insertSorted le a acc)
      refine (List.foldl_cons _ _ ▸ h1).trans ?_
      have h2 : List.Perm (insertSorted le a acc) (a :: acc) := insertSorted_perm le a acc
      have h3 : List.Perm (insertSorted le a acc ++ rest) ((a :: acc) ++ rest) :=
        h2.append_right rest
      refine h3.trans ?_
      have h4 : List.Perm (a :: (acc ++ rest)) (acc ++ a :: rest) := (List.perm_middle).symm
      simpa using h4

theorem stableSortBy_mem {α : Type} {le : α → α → Bool} {l : List α} {a : α} :
    a ∈ stableSortBy le l ↔ a ∈ l :=
  (stableSortBy_perm le l).mem_iff

theorem mem_matchingPassageQs {bank : List Question} {sf uf : List String} {q : Question}
    (h : q ∈ matchingPassageQs bank sf uf) :
    questionMatches sf uf q = true ∧ q.isPassage = false ∧ q.passageId.isSome = true := by
  unfold matchingPassageQs at h
  rw [stableSortBy_mem] at h
  have h2 := (List.mem_filter.mp h).2
  have h3 : (questionMatches sf uf q = true ∧ q.isPassage = false) ∧
      q.passageId.isSome = true := by
    simpa [Bool.and_eq_true, Bool.not_eq_true'] using h2
  exact ⟨h3.1.1, h3.1.2, h3.2⟩

theorem passageId_of_mem_matchingPassageQs {bank : List Question} {sf uf : List String}
    {q : Question} (h : q ∈ matchingPassageQs bank sf uf) :
    q.passageId = some (pidKey q) := by
  have := (mem_matchingPassageQs h).2.2
  unfold pidKey
  cases hpq : q.passageId with
  | none => rw [hpq] at this; exact absurd this (by simp)
  | some v => simp [hpq]

theorem mem_matchingStandaloneQs {bank : List Question} {sf uf : List String} {q : Question}
    (h : q ∈ matchingStandaloneQs bank sf uf) :
    questionMatches sf uf q = true ∧ q.isPassage = false ∧ q.passageId = none := by
  unfold matchingStandaloneQs at h
  have h2 := (List.mem_filter.mp h).2
  have h3 : (questionMatches sf uf q = true ∧ q.isPassage = false) ∧ q.passageId = none := by
    simpa [Bool.and_eq_true, Bool.not_eq_true', Option.isNone_iff_eq_none] using h2
  exact ⟨h3.1.1, h3.1.2, h3.2⟩

/-- Every grouped block is the full fibre of its key over the input list and
is non-empty. -/
theorem mem_groups_whole (l : List Question) (b : List Question)
    (hb : b ∈ (groupByPassage l).map Prod.snd) :
    ∃ k, b = l.filter (fun x => pidKey x == k) ∧ b ≠ [] := by
  obtain ⟨kg, hm, he⟩ := List.mem_map.mp hb
  obtain ⟨h1, h2, h3, h4, h5⟩ := groupByPassage_inv l
  exact ⟨kg.1, he ▸ h2 kg hm, he ▸ h3 kg hm⟩

/-- Distinct grouped blocks share no passage id. -/
theorem groups_pairwise_noShared (l : List Question)
    (hl : ∀ q ∈ l, q.passageId = some (pidKey q)) :
    ((groupByPassage l).map Prod.snd).Pairwise NoSharedPid := by
  obtain ⟨h1, h2, h3, h4, h5⟩ := groupByPassage_inv l
  rw [List.pairwise_map]
  refine h1.imp_of_mem ?_
  intro a b ha hb hne
  rintro ⟨p, ⟨x, hxa, hxp⟩, ⟨y, hyb, hyp⟩⟩
  have hxa2 : pidKey x = a.1 := by
    rw [h2 a ha] at hxa
    simpa using (List.mem_filter.mp hxa).2
  have hyb2 : pidKey y = b.1 := by
    rw [h2 b hb] at hyb
    simpa using (List.mem_filter.mp hyb).2
  have hxl : x ∈ l := by
    rw [h2 a ha] at hxa
    exact (List.mem_filter.mp hxa).1
  have hyl : y ∈ l := by
    rw [h2 b hb] at hyb
    exact (List.mem_filter.mp hyb).1
  have hx3 : pidKey x = p := by
    have := hl x hxl
    rw [hxp] at this
    simpa using this.symm
  have hy3 : pidKey y = p := by
    have := hl y hyl
    rw [hyp] at this
    simpa using this.symm
  exact hne (by rw [← hxa2, hx3, ← hy3, hyb2])

/-- `NoSharedPid` is symmetric. -/
theorem noSharedPid_symm {a b : List Question} (h : NoSharedPid a b) : NoSharedPid b a := by
  rintro ⟨p, hb, ha⟩
  exact h ⟨p, ha, hb⟩

theorem pairwise_of_forall_mem {α : Type} {R : α → α → Prop} :
    ∀ (l : List α), (∀ a ∈ l, ∀ b ∈ l, R a b) → l.Pairwise R := by
  intro l
  induction l with
  | nil => intro _; exact List.Pairwise.nil
  | cons a rest ih =>
      intro h
      refine List.pairwise_cons.mpr ⟨?_, ?_⟩
      · intro b hb
        exact h a (List.mem_cons_self _ _) b (List.mem_cons_of_mem _ hb)
      · exact ih (fun x hx y hy =>
          h x (List.mem_cons_of_mem _ hx) y (List.mem_cons_of_mem _ hy))

theorem flatten_map_singleton (l : List Question) :
    (l.map (fun q => [q])).flatten = l := by
  induction l with
  | nil => rfl
  | cons a rest ih => simp [ih]

/-- A good item is, for each passage id, either all of that id or free of it. -/
theorem goodItem_hom (P : List Question) (p : Nat) (item : List Question)
    (h : GoodItem P item) :
    (∀ q ∈ item, q.passageId = some p) ∨ (∀ q ∈ item, q.passageId ≠ some p) := by
  rcases h with ⟨q0, rfl, hq0⟩ | ⟨k, hne, hform⟩
  · right
    intro q hq
    have : q = q0 := by simpa using hq
    subst this
    rw [hq0]
    simp
  · by_cases hkp : k = p
    · subst hkp
      left
      intro q hq
      rw [hform] at hq
      simpa using (List.mem_filter.mp hq).2
    · right
      intro q hq hqp
      rw [hform] at hq
      have : q.passageId = some k := by simpa using (List.mem_filter.mp hq).2
      rw [hqp] at this
      exact hkp (Option.some_inj.mp this).symm

/-- Flattening good, pid-disjoint items: each passage-id fibre of the result
is either empty or the whole fibre of the passage pool. -/
theorem flatten_filter_allOrNothing (P : List Question) :
    ∀ (items : List (List Question)), (∀ item ∈ items, GoodItem P item) →
      items.Pairwise NoSharedPid → ∀ p : Nat,
      items.flatten.filter (fun q => q.passageId == some p) = [] ∨
      items.flatten.filter (fun q => q.passageId == some p) =
        P.filter (fun q => q.passageId == some p) := by
  intro items
  induction items with
  | nil =>
      intro _ _ p
      left
      rfl
  | cons g rest ih =>
      intro hgood hpair p
      have hpair' := List.pairwise_cons.mp hpair
      have ihrest := ih (fun i hi => hgood i (List.mem_cons_of_mem _ hi)) hpair'.2 p
      rw [List.flatten_cons, List.filter_append]
      rcases hgood g (List.mem_cons_self _ _) with ⟨q0, rfl, hq0⟩ | ⟨k, hne, hform⟩
      · have hz : [q0].filter (fun q => q.passageId == some p) = [] := by
          simp [List.filter_cons, hq0]
        rw [hz, List.nil_append]
        exact ihrest
      · by_cases hkp : k = p
        · subst hkp
          have hg_all : ∀ q ∈ g, (q.passageId == some k) = true := by
            intro q hq
            rw [hform] at hq
            exact (List.mem_filter.mp hq).2
          have hgf : g.filter (fun q => q.passageId == some k) = g :=
            List.filter_eq_self.mpr hg_all
          have hrf : rest.flatten.filter (fun q => q.passageId == some k) = [] := by
            rw [List.filter_eq_nil_iff]
            intro y hy hbeq
            obtain ⟨gy, hgy, hygy⟩ := List.mem_flatten.mp hy
            obtain ⟨x0, hx0⟩ := List.exists_mem_of_ne_nil g hne
            have hx0p : x0.passageId = some k := by simpa using hg_all x0 hx0
            exact hpair'.1 gy hgy ⟨k, ⟨x0, hx0, hx0p⟩, ⟨y, hygy, by simpa using hbeq⟩⟩
          rw [hgf, hrf, List.append_nil]
          right
          exact hform
        · have hgf : g.filter (fun q => q.passageId == some p) = [] := by
            rw [List.filter_eq_nil_iff]
            intro x hx hbeq
            rw [hform] at hx
            have h1 : x.passageId = some k := by simpa using (List.mem_filter.mp hx).2
            have h2 : x.passageId = some p := by simpa using hbeq
            rw [h1] at h2
            exact hkp (Option.some_inj.mp h2)
          rw [hgf, List.nil_append]
          exact ihrest

/-- Flattening pid-homogeneous, pid-disjoint items keeps each passage group
contiguous. -/
theorem flatten_blockContiguous (p : Nat) :
    ∀ (items : List (List Question)),
      (∀ item ∈ items,
        (∀ q ∈ item, q.passageId = some p) ∨ (∀ q ∈ item, q.passageId ≠ some p)) →
      items.Pairwise NoSharedPid → BlockContiguous items.flatten p := by
  intro items
  induction items with
  | nil =>
      intro _ _
      exact ⟨[], [], [], by simp, by simp, by simp, by simp⟩
  | cons g rest ih =>
      intro hhom hpair
      have hpair' := List.pairwise_cons.mp hpair
      have ihrest := ih (fun i hi => hhom i (List.mem_cons_of_mem _ hi)) hpair'.2
      rcases hhom g (List.mem_cons_self _ _) with hgp | hgnp
      · by_cases hg : g = []
        · subst hg
          rw [List.flatten_cons, List.nil_append]
          exact ihrest
        · refine ⟨[], g, rest.flatten, by rw [List.flatten_cons]; simp, by simp, hgp, ?_⟩
          intro y hy hyp
          obtain ⟨gy, hgy, hygy⟩ := List.mem_flatten.mp hy
          obtain ⟨x0, hx0⟩ := List.exists_mem_of_ne_nil g hg
          exact hpair'.1 gy hgy ⟨p, ⟨x0, hx0, hgp x0 hx0⟩, ⟨y, hygy, hyp⟩⟩
      · obtain ⟨pre, mid, post, heq, hpre, hmid, hpost⟩ := ihrest
        refine ⟨g ++ pre, mid, post, ?_, ?_, hmid, hpost⟩
        · rw [List.flatten_cons, heq]
          simp [List.append_assoc]
        · intro x hx
          rcases List.mem_append.mp hx with h1 | h2
          · exact hgnp x h1
          · exact hpre x h2

/-- Every group handed to the greedy loop is a whole, non-empty fibre of the
passage pool. -/
theorem sortedGroups_whole (bank : List Question) (sf uf : List String) (g : List Question)
    (hg : g ∈ sortGroupsBySizeDesc
      ((groupByPassage (matchingPassageQs bank sf uf)).map Prod.snd)) :
    ∃ k : Nat, g ≠ [] ∧
      g = (matchingPassageQs bank sf uf).filter (fun q => q.passageId == some k) := by
  unfold sortGroupsBySizeDesc at hg
  rw [stableSortBy_mem] at hg
  obtain ⟨k, hform, hne⟩ := mem_groups_whole _ g hg
  refine ⟨k, hne, ?_⟩
  rw [hform]
  apply List.filter_congr
  intro x hx
  have hpid := passageId_of_mem_matchingPassageQs hx
  rw [Bool.eq_iff_iff, beq_iff_eq, beq_iff_eq, hpid]
  constructor
  · intro h
    rw [h]
  · intro h
    exact Option.some_inj.mp h

theorem sortedGroups_pairwise (bank : List Question) (sf uf : List String) :
    (sortGroupsBySizeDesc
      ((groupByPassage (matchingPassageQs bank sf uf)).map Prod.snd)).Pairwise NoSharedPid := by
  unfold sortGroupsBySizeDesc
  rw [(stableSortBy_perm _ _).pairwise_iff (fun h => noSharedPid_symm h)]
  exact groups_pairwise_noShared _ (fun q hq => passageId_of_mem_matchingPassageQs hq)

/-- The greedy selection is a flattening of whole, pairwise pid-disjoint
passage groups, and never exceeds the 75% target. -/
theorem greedy_chosen (bank : List Question) (sf uf : List String) (n : Nat) :
    ∃ chosen : List (List Question),
      (∀ g ∈ chosen, ∃ k : Nat, g ≠ [] ∧
        g = (matchingPassageQs bank sf uf).filter (fun q => q.passageId == some k)) ∧
      chosen.Pairwise NoSharedPid ∧
      (greedySelection bank sf uf n).1 = chosen.flatten ∧
      (greedySelection bank sf uf n).1.length ≤ passageTarget n := by
  obtain ⟨chosen, hsub, heq⟩ :=
    selectGroups_flatten (passageTarget n)
      (sortGroupsBySizeDesc ((groupByPassage (matchingPassageQs bank sf uf)).map Prod.snd)) []
  refine ⟨chosen, ?_, ?_, ?_, ?_⟩
  · intro g hgmem
    exact sortedGroups_whole bank sf uf g (hsub.subset hgmem)
  · exact (sortedGroups_pairwise bank sf uf).sublist hsub
  · unfold greedySelection
    simpa using heq
  · exact selectGroups_length_le _ _ [] (by simp)

/-- Every greedily selected question carries its passage id. -/
theorem sel_pid (bank : List Question) (sf uf : List String) (n : Nat) :
    ∀ q ∈ (greedySelection bank sf uf n).1, q.passageId = some (pidKey q) := by
  obtain ⟨chosen, hwhole, _, heq, _⟩ := greedy_chosen bank sf uf n
  intro q hq
  rw [heq] at hq
  obtain ⟨g, hgmem, hqg⟩ := List.mem_flatten.mp hq
  obtain ⟨k, _, hform⟩ := hwhole g hgmem
  rw [hform] at hqg
  exact passageId_of_mem_matchingPassageQs (List.mem_filter.mp hqg).1

/-- The standalone-sampling filter is the identity: greedily selected
questions are passage-attached, standalone candidates are not. -/
theorem standalone_filter_id (bank : List Question) (sf uf : List String) (n : Nat) :
    (matchingStandaloneQs bank sf uf).filter
        (fun q => !((greedySelection bank sf uf n).1.contains q)) =
      matchingStandaloneQs bank sf uf := by
  rw [List.filter_eq_self]
  intro q hq
  have hnone := (mem_matchingStandaloneQs hq).2.2
  have hnotin : q ∉ (greedySelection bank sf uf n).1 := by
    intro hmem
    have := sel_pid bank sf uf n q hmem
    rw [hnone] at this
    simp at this
  simpa using hnotin

/-- `selectedQuestions` is the greedy part followed by the capped standalone
sample. -/
theorem assembleSelected_eq (bank : List Question) (sf uf : List String) (n : Nat)
    (shPick : List Question → List Question) (hPick : ∀ l, List.Perm (shPick l) l) :
    assembleSelected bank sf uf n shPick =
      (greedySelection bank sf uf n).1 ++
        (shPick (matchingStandaloneQs bank sf uf)).take
          (n - (greedySelection bank sf uf n).1.length) := by
  unfold assembleSelected
  dsimp only
  by_cases h : (matchingStandaloneQs bank sf uf).length > 0
  · rw [if_pos h, standalone_filter_id]
  · rw [if_neg h]
    have hS : matchingStandaloneQs bank sf uf = [] := by
      rw [← List.length_eq_zero]
      omega
    rw [hS]
    have hnil : shPick [] = [] := (hPick []).eq_nil
    simp [hnil]

theorem assembleSelected_length (bank : List Question) (sf uf : List String) (n : Nat)
    (shPick : List Question → List Question) (hPick : ∀ l, List.Perm (shPick l) l) :
    (assembleSelected bank sf uf n shPick).length =
      (greedySelection bank sf uf n).1.length +
        min (n - (greedySelection bank sf uf n).1.length)
          (matchingStandaloneQs bank sf uf).length := by
  rw [assembleSelected_eq bank sf uf n shPick hPick, List.length_append, List.length_take,
    (hPick _).length_eq]

theorem assemble_shortfall_eq (bank : List Question) (sf uf : List String) (n : Nat)
    (shPick shStandalone : List Question → List Question)
    (shCombined : List (List Question) → List (List Question))
    (hlt : (assembleSelected bank sf uf n shPick).length < n) :
    assemble bank sf uf n shPick shStandalone shCombined =
      AssembleOutcome.shortfall (assembleSelected bank sf uf n shPick).length
        (greedySelection bank sf uf n).2 := by
  unfold assemble
  dsimp only
  rw [if_pos hlt]

theorem assemble_success_eq (bank : List Question) (sf uf : List String) (n : Nat)
    (shPick shStandalone : List Question → List Question)
    (shCombined : List (List Question) → List (List Question))
    (hge : ¬(assembleSelected bank sf uf n shPick).length < n) :
    assemble bank sf uf n shPick shStandalone shCombined =
      AssembleOutcome.success
        ((shCombined
          (((groupByPassage ((assembleSelected bank sf uf n shPick).filter
              (fun q => q.passageId.isSome))).map Prod.snd) ++
            ((shStandalone ((assembleSelected bank sf uf n shPick).filter
              (fun q => q.passageId.isNone))).map (fun q => [q])))).flatten.take n) := by
  unfold assemble
  dsimp only
  rw [if_neg hge]

/-- Counterexample to C4 as stated: on a bank holding one passage group of
ten questions, requesting ten yields a shortfall reporting
`availableQuestions = 0` (and no groups), although a full ten-question test
is genuinely assemblable without splitting any group. -/
theorem availableCount_not_true_max :
    assemble passageOnlyBank [] [] 10 id id id = AssembleOutcome.shortfall 0 [] ∧
    IsAssemblable passageOnlyBank [] [] 10 10 := by
  constructor
  · rfl
  · refine ⟨passageOnlyBank.filter (fun q => questionMatches [] [] q && !q.isPassage),
      List.Sublist.refl _, by decide, by decide, ?_⟩
    have hall : ∀ x ∈ passageOnlyBank.filter (fun q => questionMatches [] [] q && !q.isPassage),
        x.passageId = some 1 := by decide
    intro p
    by_cases hp : p = 1
    · subst hp
      right
      decide
    · left
      rw [List.filter_eq_nil_iff]
      intro q hq hbeq
      rw [hall q hq] at hbeq
      have : (1 : Nat) = p := by simpa using hbeq
      exact hp this.symm

/-- Claim C4 as amended: when the greedy selection (whole groups within the
75% target) plus the whole standalone pool cannot reach `N`, `createTest`
raises the structured `InsufficientQuestionsError` whose `availableQuestions`
is exactly that greedy count — the groups selected plus all matching
standalone questions, which (see the counterexample) may undercount the true
maximum — together with the unconsumed groups; otherwise assembly succeeds. -/
theorem assemble_shortfall_spec (bank : List Question) (sf uf : List String) (n : Nat)
    (shPick shStandalone : List Question → List Question)
    (shCombined : List (List Question) → List (List Question))
    (hPick : ∀ l, List.Perm (shPick l) l) :
    ((greedySelection bank sf uf n).1.length + (matchingStandaloneQs bank sf uf).length < n →
      assemble bank sf uf n shPick shStandalone shCombined =
        AssembleOutcome.shortfall
          ((greedySelection bank sf uf n).1.length + (matchingStandaloneQs bank sf uf).length)
          (greedySelection bank sf uf n).2) ∧
    (n ≤ (greedySelection bank sf uf n).1.length + (matchingStandaloneQs bank sf uf).length →
      ∃ qs, assemble bank sf uf n shPick shStandalone shCombined =
        AssembleOutcome.success qs) := by
  have hlen := assembleSelected_length bank sf uf n shPick hPick
  obtain ⟨chosen, _, _, _, hle⟩ := greedy_chosen bank sf uf n
  have htn : passageTarget n ≤ n := by unfold passageTarget; omega
  constructor
  · intro h
    have hmin : min (n - (greedySelection bank sf uf n).1.length)
        (matchingStandaloneQs bank sf uf).length = (matchingStandaloneQs bank sf uf).length := by
      omega
    have hslen : (assembleSelected bank sf uf n shPick).length =
        (greedySelection bank sf uf n).1.length + (matchingStandaloneQs bank sf uf).length := by
      rw [hlen, hmin]
    rw [assemble_shortfall_eq bank sf uf n shPick shStandalone shCombined (by omega), hslen]
  · intro h
    refine ⟨_, assemble_success_eq bank sf uf n shPick shStandalone shCombined ?_⟩
    have hmin : min (n - (greedySelection bank sf uf n).1.length)
        (matchingStandaloneQs bank sf uf).length =
        n - (greedySelection bank sf uf n).1.length := by
      omega
    omega

/-- Witness for the amended C4: the ten-question request on the passage-only
bank falls short and reports the greedy count (0 groups + 0 standalone). -/
theorem assemble_shortfall_spec_witness :
    ((greedySelection passageOnlyBank [] [] 10).1.length +
        (matchingStandaloneQs passageOnlyBank [] []).length < 10) ∧
    assemble passageOnlyBank [] [] 10 id id id =
      AssembleOutcome.shortfall
        ((greedySelection passageOnlyBank [] [] 10).1.length +
          (matchingStandaloneQs passageOnlyBank [] []).length)
        (greedySelection passageOnlyBank [] [] 10).2 := by
  have h1 : (greedySelection passageOnlyBank [] [] 10).1 = [] := rfl
  have h2 : matchingStandaloneQs passageOnlyBank [] [] = [] := rfl
  refine ⟨by rw [h1, h2]; decide, ?_⟩
  exact (assemble_shortfall_spec passageOnlyBank [] [] 10 id id id
    (fun l => List.Perm.refl l)).1 (by rw [h1, h2]; decide)

/-- Counterexample to C3 as stated: the bank holds ten matching non-passage
questions (one passage group of ten) and ten are requested, yet the
assembler returns a shortfall of 0 instead of ten questions — groups larger
than the 75% target are discarded and nothing fills the gap. -/
theorem assemble_not_filled_from_matching :
    (0 : Nat) < 10 ∧
    (passageOnlyBank.filter (fun q => questionMatches [] [] q && !q.isPassage)).length = 10 ∧
    assemble passageOnlyBank [] [] 10 id id id = AssembleOutcome.shortfall 0 [] := by
  refine ⟨by decide, by decide, by decide⟩

/-- Claim C3 as amended: for a request of `N > 0` questions whose filters
match at least `N` standalone questions (so the standalone fill can always
reach `N`; at least `N` matching questions alone does not suffice, see the
counterexample), assembly succeeds with exactly `N` questions; each passage
id appearing in the result carries its whole fetched group, and every
passage group is contiguous in the final order. -/
theorem assemble_success_shape (bank : List Question) (sf uf : List String) (n : Nat)
    (shPick shStandalone : List Question → List Question)
    (shCombined : List (List Question) → List (List Question))
    (hPick : ∀ l, List.Perm (shPick l) l)
    (hSt : ∀ l, List.Perm (shStandalone l) l)
    (hC : ∀ l, List.Perm (shCombined l) l)
    (hn : 0 < n)
    (hm : n ≤ (matchingStandaloneQs bank sf uf).length) :
    ∃ qs, assemble bank sf uf n shPick shStandalone shCombined = AssembleOutcome.success qs ∧
      qs.length = n ∧
      (∀ p : Nat, qs.filter (fun q => q.passageId == some p) = [] ∨
        qs.filter (fun q => q.passageId == some p) =
          (matchingPassageQs bank sf uf).filter (fun q => q.passageId == some p)) ∧
      (∀ p : Nat, BlockContiguous qs p) := by
  obtain ⟨chosen, hwhole, hchpair, hcheq, hle⟩ := greedy_chosen bank sf uf n
  have htn : passageTarget n ≤ n := by unfold passageTarget; omega
  have hlen := assembleSelected_length bank sf uf n shPick hPick
  set P := matchingPassageQs bank sf uf with hPdef
  set sel := (greedySelection bank sf uf n).1 with hseldef
  set S := matchingStandaloneQs bank sf uf with hSdef
  have hSn : sel.length ≤ n := le_trans hle htn
  have hmin : min (n - sel.length) S.length = n - sel.length :=
    min_eq_left ((Nat.sub_le n sel.length).trans hm)
  have hslen : (assembleSelected bank sf uf n shPick).length = n := by
    rw [hlen, hmin]
    omega
  have hnlt : ¬(assembleSelected bank sf uf n shPick).length < n := by omega
  have hsel_eq := assembleSelected_eq bank sf uf n shPick hPick
  set picked := (shPick S).take (n - sel.length) with hpickdef
  have hpicked_none : ∀ q ∈ picked, q.passageId = none := by
    intro q hq
    have h1 : q ∈ shPick S := List.mem_of_mem_take hq
    have h2 : q ∈ S := ((hPick S).mem_iff).mp h1
    exact (mem_matchingStandaloneQs h2).2.2
  have hsel_some : ∀ q ∈ sel, q.passageId = some (pidKey q) := sel_pid bank sf uf n
  have hfil_some :
      (assembleSelected bank sf uf n shPick).filter (fun q => q.passageId.isSome) = sel := by
    rw [hsel_eq, List.filter_append]
    have h1 : sel.filter (fun q => q.passageId.isSome) = sel :=
      List.filter_eq_self.mpr (fun q hq => by rw [hsel_some q hq]; rfl)
    have h2 : picked.filter (fun q => q.passageId.isSome) = [] := by
      rw [List.filter_eq_nil_iff]
      intro q hq hs
      rw [hpicked_none q hq] at hs
      simp at hs
    rw [h1, h2, List.append_nil]
  have hfil_none :
      (assembleSelected bank sf uf n shPick).filter (fun q => q.passageId.isNone) = picked := by
    rw [hsel_eq, List.filter_append]
    have h1 : sel.filter (fun q => q.passageId.isNone) = [] := by
      rw [List.filter_eq_nil_iff]
      intro q hq hs
      rw [hsel_some q hq] at hs
      simp at hs
    have h2 : picked.filter (fun q => q.passageId.isNone) = picked :=
      List.filter_eq_self.mpr (fun q hq => by rw [hpicked_none q hq]; rfl)
    rw [h1, h2, List.nil_append]
  set blocks := (groupByPassage sel).map Prod.snd with hblocksdef
  have hblocks_flat : List.Perm blocks.flatten sel := (groupByPassage_inv sel).2.2.2.2
  have hself : ∀ p : Nat, sel.filter (fun q => q.passageId == some p) = [] ∨
      sel.filter (fun q => q.passageId == some p) =
        P.filter (fun q => q.passageId == some p) := by
    intro p
    rw [hcheq]
    exact flatten_filter_allOrNothing P chosen
      (fun g hg => by
        obtain ⟨k, hne, hform⟩ := hwhole g hg
        exact Or.inr ⟨k, hne, hform⟩)
      hchpair p
  have hblocks_good : ∀ b ∈ blocks, GoodItem P b := by
    intro b hb
    obtain ⟨k, hform, hne⟩ := mem_groups_whole sel b hb
    have hform2 : b = sel.filter (fun x => x.passageId == some k) := by
      rw [hform]
      apply List.filter_congr
      intro x hx
      rw [Bool.eq_iff_iff, beq_iff_eq, beq_iff_eq, hsel_some x hx]
      constructor
      · intro h
        rw [h]
      · intro h
        exact Option.some_inj.mp h
    rcases hself k with hnil | hwholek
    · exact absurd (hform2.trans hnil) hne
    · exact Or.inr ⟨k, hne, hform2.trans hwholek⟩
  have hblocks_pair : blocks.Pairwise NoSharedPid := groups_pairwise_noShared sel hsel_some
  set singles := ((shStandalone picked).map (fun q => [q]) : List (List Question)) with hsingdef
  have hsing_none : ∀ q ∈ shStandalone picked, q.passageId = none := fun q hq =>
    hpicked_none q (((hSt picked).mem_iff).mp hq)
  have hsingles_good : ∀ s ∈ singles, GoodItem P s := by
    intro s hs
    obtain ⟨q, hqmem, rfl⟩ := List.mem_map.mp hs
    exact Or.inl ⟨q, rfl, hsing_none q hqmem⟩
  have hsingles_nopid : ∀ s ∈ singles, ∀ x ∈ s, x.passageId = none := by
    intro s hs x hx
    obtain ⟨q, hqmem, rfl⟩ := List.mem_map.mp hs
    have hxq : x = q := by simpa using hx
    rw [hxq]
    exact hsing_none q hqmem
  have hsingles_pair : singles.Pairwise NoSharedPid := by
    refine pairwise_of_forall_mem _ ?_
    intro a ha b hb
    rintro ⟨p, ⟨x, hx, hxp⟩, _⟩
    rw [hsingles_nopid a ha x hx] at hxp
    simp at hxp
  have hcross : ∀ a ∈ blocks, ∀ b ∈ singles, NoSharedPid a b := by
    intro a ha b hb
    rintro ⟨p, _, ⟨y, hy, hyp⟩⟩
    rw [hsingles_nopid b hb y hy] at hyp
    simp at hyp
  have hall_pair : (blocks ++ singles).Pairwise NoSharedPid :=
    List.pairwise_append.mpr ⟨hblocks_pair, hsingles_pair, hcross⟩
  have hall_good : ∀ i ∈ blocks ++ singles, GoodItem P i := by
    intro i hi
    rcases List.mem_append.mp hi with h | h
    · exact hblocks_good i h
    · exact hsingles_good i h
  set items := shCombined (blocks ++ singles) with hitemsdef
  have hitems_perm : List.Perm items (blocks ++ singles) := hC _
  have hitems_good : ∀ i ∈ items, GoodItem P i := fun i hi =>
    hall_good i (hitems_perm.mem_iff.mp hi)
  have hitems_pair : items.Pairwise NoSharedPid :=
    (hitems_perm.pairwise_iff (fun h => noSharedPid_symm h)).mpr hall_pair
  have hpl : picked.length = n - sel.length := by
    rw [hpickdef, List.length_take, (hPick S).length_eq]
    exact hmin
  have hlen_flat : items.flatten.length = n := by
    have h1 : List.Perm items.flatten (blocks ++ singles).flatten := hitems_perm.flatten
    rw [h1.length_eq, List.flatten_append, List.length_append]
    have h2 : blocks.flatten.length = sel.length := hblocks_flat.length_eq
    have h3 : singles.flatten.length = picked.length := by
      rw [hsingdef, flatten_map_singleton, (hSt picked).length_eq]
    rw [h2, h3]
    omega
  have hasm := assemble_success_eq bank sf uf n shPick shStandalone shCombined hnlt
  rw [hfil_some, hfil_none] at hasm
  refine ⟨items.flatten, ?_, hlen_flat, ?_, ?_⟩
  · rw [hasm]
    congr 1
    exact List.take_of_length_le (le_of_eq hlen_flat)
  · intro p
    exact flatten_filter_allOrNothing P items hitems_good hitems_pair p
  · intro p
    exact flatten_blockContiguous p items
      (fun i hi => goodItem_hom P p i (hitems_good i hi)) hitems_pair

/-- Witness for the amended C3: requesting two questions from the mixed bank
(three standalone, one group of two) succeeds with exactly two questions,
whole groups, and contiguity. -/
theorem assemble_success_shape_witness :
    ((0 : Nat) < 2 ∧ 2 ≤ (matchingStandaloneQs mixedBank [] []).length) ∧
    (∃ qs, assemble mixedBank [] [] 2 id id id = AssembleOutcome.success qs ∧
      qs.length = 2 ∧
      (∀ p : Nat, qs.filter (fun q => q.passageId == some p) = [] ∨
        qs.filter (fun q => q.passageId == some p) =
          (matchingPassageQs mixedBank [] []).filter (fun q => q.passageId == some p)) ∧
      (∀ p : Nat, BlockContiguous qs p)) :=
  ⟨⟨by decide, by decide⟩,
   assemble_success_shape mixedBank [] [] 2 id id id
     (fun l => List.Perm.refl l) (fun l => List.Perm.refl l) (fun l => List.Perm.refl l)
     (by decide) (by decide)⟩

/-! ## Billing theorems -/

theorem daysInMonth_ge (y m : Int) : 28 ≤ daysInMonth y m := by
  unfold daysInMonth
  split_ifs <;> norm_num

theorem daysInMonth_le (y m : Int) : daysInMonth y m ≤ 31 := by
  unfold daysInMonth
  split_ifs <;> norm_num

/-- Adding at least one month strictly advances a valid date. -/
theorem toOrd_lt_addMonthsJS (d : JSDate) (k : Int) (hd : d.Valid) (hk : 1 ≤ k) :
    d.toOrd < (addMonthsJS d k).toOrd := by
  obtain ⟨hm0, hm12, hd1, hdle, hms0, hmsl⟩ := hd
  have hday31 : d.day ≤ 31 := le_trans hdle (daysInMonth_le d.year d.month)
  have hq : 12 * ((d.month + k).fdiv 12) + (d.month + k).emod 12 = d.month + k := by
    rw [Int.fdiv_eq_ediv _ (by norm_num)]
    exact Int.ediv_add_emod _ 12
  have hq2 : 12 * (((d.month + k).emod 12 + 1).fdiv 12) +
      ((d.month + k).emod 12 + 1).emod 12 = (d.month + k).emod 12 + 1 := by
    rw [Int.fdiv_eq_ediv _ (by norm_num)]
    exact Int.ediv_add_emod _ 12
  have hdim1 : 28 ≤ daysInMonth (d.year + (d.month + k).fdiv 12) ((d.month + k).emod 12) :=
    daysInMonth_ge _ _
  have hdim2 : daysInMonth (d.year + (d.month + k).fdiv 12) ((d.month + k).emod 12) ≤ 31 :=
    daysInMonth_le _ _
  unfold addMonthsJS JSDate.toOrd
  dsimp only
  split <;> dsimp only <;> omega

/-- Claim C6: a successful renewal stores
`subscriptionEndDate = (current end if still in the future, else now) + plan
months` — `setMonth(+1)` for `ONE_MONTH`, `setMonth(+3)` for `THREE_MONTHS`
(calendar arithmetic: Jan 31 + 1 month = Mar 3, not a fixed 30-day window) —
so renewing before expiry extends strictly beyond the current end date and
the concrete spec scenario (end = Jun 6, now = Jun 1, ONE_MONTH → Jul 6, not
now + 1 month = Jul 1) holds. -/
theorem renewal_extends_from_current_end :
    (∀ (now : JSDate) (u : BillingUser) (len : SubscriptionLength),
      (applyRenewal now u len).subscriptionEndDate =
        some (addMonthsJS
          (if JSDate.ltb now (u.subscriptionEndDate.getD now) then u.subscriptionEndDate.getD now
           else now)
          (monthsOf len))) ∧
    (∀ (now e : JSDate) (len : SubscriptionLength), e.Valid → JSDate.ltb now e = true →
      e.toOrd < ((renewDates now (some e) len).2).toOrd) ∧
    (renewDates ⟨2025, 5, 1, 0⟩ (some ⟨2025, 5, 6, 0⟩) SubscriptionLength.oneMonth).2 =
      ⟨2025, 6, 6, 0⟩ ∧
    addMonthsJS ⟨2025, 5, 1, 0⟩ 1 = ⟨2025, 6, 1, 0⟩ ∧
    (⟨2025, 6, 6, 0⟩ : JSDate) ≠ ⟨2025, 6, 1, 0⟩ ∧
    addMonthsJS ⟨2025, 0, 31, 0⟩ 1 = ⟨2025, 2, 3, 0⟩ := by
  refine ⟨?_, ?_, by decide, by decide, by decide, by decide⟩
  · intro now u len
    cases len <;> rfl
  · intro now e len hval hlt
    have hsnd : (renewDates now (some e) len).2 = calculateSubscriptionEndDate len e := by
      simp [renewDates, hlt]
    rw [hsnd]
    cases len
    · exact toOrd_lt_addMonthsJS e 1 hval (by norm_num)
    · exact toOrd_lt_addMonthsJS e 3 hval (by norm_num)

/-- Witness for C6: renewing on Jun 1 a subscription ending Jun 6 moves the
end strictly past Jun 6 (to Jul 6). -/
theorem renewal_extends_from_current_end_witness :
    (JSDate.Valid ⟨2025, 5, 6, 0⟩ ∧
      JSDate.ltb ⟨2025, 5, 1, 0⟩ ⟨2025, 5, 6, 0⟩ = true) ∧
    JSDate.toOrd ⟨2025, 5, 6, 0⟩ <
      JSDate.toOrd
        ((renewDates ⟨2025, 5, 1, 0⟩ (some ⟨2025, 5, 6, 0⟩) SubscriptionLength.oneMonth).2) :=
  ⟨⟨by decide, by decide⟩,
   renewal_extends_from_current_end.2.1 ⟨2025, 5, 1, 0⟩ ⟨2025, 5, 6, 0⟩
     SubscriptionLength.oneMonth (by decide) (by decide)⟩

/-! ## Lifecycle theorems -/

/-- Claim C2 (code bug in the source): no operation checks the test status,
so completing the one-question fixture (score 0, `completedAt = 100`), then
answering its question after completion, then completing again yields score
100 and `completedAt = 200` — the second `complete` recomputes a different
score and overwrites `completedAt`, and `recordAnswer`/`pause` succeed on a
`COMPLETED` test instead of being rejected. -/
theorem completed_test_not_terminal :
    (completeTest 100 fixtureTest).status = TestStatus.completed ∧
    (completeTest 100 fixtureTest).score = some (JSNum.int 0) ∧
    (completeTest 100 fixtureTest).completedAt = some 100 ∧
    ((updateTestQuestionAnswer 7 "A" (completeTest 100 fixtureTest)).testQuestions.map
        TestQuestion.userAnswer = [some "A"]) ∧
    (completeTest 200 (updateTestQuestionAnswer 7 "A" (completeTest 100 fixtureTest))).score =
      some (JSNum.int 100) ∧
    (completeTest 200 (updateTestQuestionAnswer 7 "A" (completeTest 100 fixtureTest))).completedAt =
      some 200 ∧
    (pauseTest 300 50 (completeTest 100 fixtureTest)).pausedTime = some 300 ∧
    (pauseTest 300 50 (completeTest 100 fixtureTest)).status = TestStatus.completed := by
  refine ⟨rfl, ?_, rfl, by decide, ?_, rfl, rfl, rfl⟩
  · show some (computeScore fixtureTest.testQuestions) = _
    have h : fixtureTest.testQuestions.filter isCorrect = [] := by decide
    have hlen : fixtureTest.testQuestions.length = 1 := by decide
    simp only [computeScore, h, hlen, List.length_nil]
    norm_num [jsRound]
  · show some (computeScore
        (updateTestQuestionAnswer 7 "A" (completeTest 100 fixtureTest)).testQuestions) = _
    have h : ((updateTestQuestionAnswer 7 "A"
        (completeTest 100 fixtureTest)).testQuestions.filter isCorrect).length = 1 := by decide
    have hlen :
        (updateTestQuestionAnswer 7 "A" (completeTest 100 fixtureTest)).testQuestions.length = 1 := by
      decide
    simp only [computeScore, h, hlen]
    norm_num [jsRound]

/-- Claim C9 (code bug in the source): a requested count of `0` passes every
check — assembly succeeds with an empty selection and `createTest` persists a
test with zero questions instead of rejecting the request. -/
theorem createTest_zero_count_accepted :
    assemble mixedBank [] [] 0 id id id = AssembleOutcome.success [] ∧
    createTest 0 mixedBank [] [] 0 id id id = Except.ok (createTestRow 0 []) :=
  ⟨rfl, rfl⟩

/-- Counterexample to C7 as stated: pausing with remaining time `0` stores a
falsy value, so the next read reports the full `totalTestDuration` again (an
increase from 0 to 3600 caused by a mere read), and pausing with a negative
caller value makes the stored, observable `remainingSeconds` negative. -/
theorem remainingSeconds_not_monotone :
    (pauseTest 5000 0 (createTestRow 0 [])).remainingSeconds = some 0 ∧
    detailsRemaining 6000 (pauseTest 5000 0 (createTestRow 0 [])) = 3600 ∧
    (pauseTest 7000 (-5) (createTestRow 0 [])).remainingSeconds = some (-5) := by
  decide

/-- Claim C7 as amended: `recordAnswer` touches no timer field and `complete`
never writes `remainingSeconds`; `pause` stores exactly the caller-supplied
(unvalidated) value; the value a read reports is non-negative whenever
`totalTestDuration` is, and between two reads of an unchanged test whose
stored `remainingSeconds` is non-null and non-zero it never increases —
but a stored zero (or a pause with an arbitrary value) escapes both
guarantees, as the counterexample shows. -/
theorem remainingSeconds_accounting (t : TestState) (now later r : Int)
    (tqId : Nat) (ans : String) :
    ((updateTestQuestionAnswer tqId ans t).remainingSeconds = t.remainingSeconds ∧
     (updateTestQuestionAnswer tqId ans t).startTime = t.startTime ∧
     (updateTestQuestionAnswer tqId ans t).pausedTime = t.pausedTime ∧
     (updateTestQuestionAnswer tqId ans t).totalTestDuration = t.totalTestDuration) ∧
    (completeTest now t).remainingSeconds = t.remainingSeconds ∧
    (completeTest now t).totalTestDuration = t.totalTestDuration ∧
    (pauseTest now r t).remainingSeconds = some r ∧
    (startOrResumeTest now t).totalTestDuration = t.totalTestDuration ∧
    (0 ≤ t.totalTestDuration → 0 ≤ detailsRemaining now t) ∧
    (t.startTime.isSome = true → jsTruthyOptInt t.remainingSeconds = true →
      now ≤ later → detailsRemaining later t ≤ detailsRemaining now t) := by
  refine ⟨⟨rfl, rfl, rfl, rfl⟩, rfl, rfl, rfl, ?_, ?_, ?_⟩
  · unfold startOrResumeTest
    cases t.startTime <;> rfl
  · intro hdur
    unfold detailsRemaining
    split
    · exact le_max_right _ _
    · exact hdur
  · intro hst htr hle
    unfold detailsRemaining
    rw [if_pos (by rw [hst, htr]; rfl), if_pos (by rw [hst, htr]; rfl)]
    cases hp : t.pausedTime.isSome
    · simp only [hp, Bool.false_eq_true, if_false]
      have hmono : (now - t.startTime.getD 0).fdiv 1000 ≤
          (later - t.startTime.getD 0).fdiv 1000 := by
        rw [Int.fdiv_eq_ediv _ (by norm_num), Int.fdiv_eq_ediv _ (by norm_num)]
        exact Int.ediv_le_ediv (by norm_num) (by omega)
      exact max_le_max (by omega) le_rfl
    · exact le_rfl

/-- Witness for C7: successive reads of the freshly created (running,
non-zero remaining) test at times 1000 and 2000 do not increase, and the
reported value is non-negative. -/
theorem remainingSeconds_accounting_witness :
    (0 ≤ (createTestRow 0 []).totalTestDuration ∧
      0 ≤ detailsRemaining 1000 (createTestRow 0 [])) ∧
    ((createTestRow 0 []).startTime.isSome = true ∧
      jsTruthyOptInt (createTestRow 0 []).remainingSeconds = true ∧ (1000 : Int) ≤ 2000 ∧
      detailsRemaining 2000 (createTestRow 0 []) ≤ detailsRemaining 1000 (createTestRow 0 [])) :=
  ⟨⟨by decide,
    (remainingSeconds_accounting (createTestRow 0 []) 1000 2000 0 0 "").2.2.2.2.2.1 (by decide)⟩,
   ⟨by decide, by decide, by decide,
    (remainingSeconds_accounting (createTestRow 0 []) 1000 2000 0 0 "").2.2.2.2.2.2
      (by decide) (by decide) (by decide)⟩⟩

/-- Counterexample to C8 as stated: the test `createTest` persists already has
`startTime` set to the creation instant and status `IN_PROGRESS`; no test is
ever in a `NOT_STARTED` state with a null `startTime`. -/
theorem createTestRow_already_started :
    (createTestRow 12345 (mixedBank.take 1)).startTime = some 12345 ∧
    (createTestRow 12345 (mixedBank.take 1)).status = TestStatus.inProgress := by
  decide

/-- Claim C8 as amended: a newly created test already carries
`status = IN_PROGRESS`, `startTime = now`, `remainingSeconds =
totalTestDuration = 3600`; `startOrResumeTest` on a test whose `startTime` is
null sets `startTime = now` and resets `remainingSeconds` to
`totalTestDuration`, and on a started test merely clears `pausedTime`,
leaving the timer untouched. -/
theorem createTest_start_resume_behaviour (now : Int) (qs : List Question) (t : TestState) :
    ((createTestRow now qs).startTime = some now ∧
     (createTestRow now qs).status = TestStatus.inProgress ∧
     (createTestRow now qs).remainingSeconds = some 3600 ∧
     (createTestRow now qs).totalTestDuration = 3600) ∧
    (t.startTime = none →
      startOrResumeTest now t =
        { t with startTime := some now, remainingSeconds := some t.totalTestDuration }) ∧
    (∀ st, t.startTime = some st →
      startOrResumeTest now t = { t with pausedTime := none }) := by
  refine ⟨⟨rfl, rfl, rfl, rfl⟩, ?_, ?_⟩
  · intro h
    unfold startOrResumeTest
    rw [h]
  · intro st h
    unfold startOrResumeTest
    rw [h]

/-- Witness for C8: the fixture test (startTime set) resumes by clearing
`pausedTime`; the same state with `startTime` erased starts by setting it. -/
theorem createTest_start_resume_behaviour_witness :
    ({ fixtureTest with startTime := none } : TestState).startTime = none ∧
    startOrResumeTest 42 { fixtureTest with startTime := none } =
      { fixtureTest with startTime := some 42, remainingSeconds := some 3600 } ∧
    fixtureTest.startTime = some 0 ∧
    startOrResumeTest 42 fixtureTest = { fixtureTest with pausedTime := none } :=
  ⟨rfl,
   by
     have h := (createTest_start_resume_behaviour 42 [] { fixtureTest with startTime := none }).2.1 rfl
     simpa using h,
   rfl,
   (createTest_start_resume_behaviour 42 [] fixtureTest).2.2 0 rfl⟩

/-- Witness for C1: the two-question fixture (one correct, one wrong answer)
completes with score `round(100 × 1 / 2) = 50`. -/
theorem completeTest_score_formula_witness :
    fixtureTest2.testQuestions ≠ [] ∧
    (∀ tq ∈ fixtureTest2.testQuestions, tq.userAnswer ≠ some "") ∧
    ∃ s : ℤ, (completeTest 9 fixtureTest2).score = some (JSNum.int s) ∧
      s = jsRound (100 * ((fixtureTest2.testQuestions.filter claimCorrect).length : ℚ) /
            (fixtureTest2.testQuestions.length : ℚ)) ∧
      0 ≤ s ∧ s ≤ 100 :=
  ⟨by decide, by decide,
   completeTest_score_formula fixtureTest2 9 (by decide) (by decide)⟩
